import Mathlib

/-!
Verification of the ANSI color manager (src/ansicolormanager.py) against its
specification.  The Python code is shallowly embedded: machine-independent
Python integers become `Int`, Python floats become exact rationals `ℚ`
(the float operations used by the code — sums, products, divisions and
comparisons of small dyadic-ish values — are modelled exactly), the fallible
`Color` constructor returns `Except String Color`, the `random` draws of the
jitter-fill loop become an explicit input list of `Jitter` choices, and the
unspecified iteration order of a Python `set` becomes an explicit
`enum : List Color → List Color` parameter that is assumed to enumerate the
accumulated set in some order (a permutation of the insertion-ordered list).
-/

/-- Truncation toward zero, the semantics of Python `int()` on a real value. -/
def pyInt (q : ℚ) : Int := if 0 ≤ q then ⌊q⌋ else ⌈q⌉

/-- Python `x % 1.0` for a real `x`: the fractional part `x - ⌊x⌋`. -/
def pymod1 (x : ℚ) : ℚ := x - ⌊x⌋

theorem pyInt_of_nonneg {q : ℚ} (h : 0 ≤ q) : pyInt q = ⌊q⌋ := if_pos h

theorem pyInt_intCast (n : ℤ) : pyInt (n : ℚ) = n := by
  unfold pyInt
  split
  · exact Int.floor_intCast n
  · exact Int.ceil_intCast n

theorem pyInt_nonneg {q : ℚ} (h : 0 ≤ q) : 0 ≤ pyInt q := by
  rw [pyInt_of_nonneg h]
  exact Int.floor_nonneg.mpr h

theorem pyInt_le_five {q : ℚ} (h0 : 0 ≤ q) (h5 : q ≤ 5) : pyInt q ≤ 5 := by
  rw [pyInt_of_nonneg h0]
  have h1 : (⌊q⌋ : ℚ) ≤ 5 := le_trans (Int.floor_le q) h5
  exact_mod_cast h1

theorem pyInt_eq_zero {q : ℚ} (h0 : 0 ≤ q) (h1 : q < 1) : pyInt q = 0 := by
  rw [pyInt_of_nonneg h0]
  exact Int.floor_eq_zero_iff.mpr ⟨h0, h1⟩

theorem pymod1_eq_of (x y : ℚ) (hxy : x = y) (h0 : 0 ≤ y) (h1 : y < 1) :
    pymod1 x = y := by
  unfold pymod1
  rw [hxy, Int.floor_eq_zero_iff.mpr ⟨h0, h1⟩]
  simp

theorem pymod1_nonneg (x : ℚ) : 0 ≤ pymod1 x := by
  unfold pymod1
  have h : (⌊x⌋ : ℚ) ≤ x := Int.floor_le x
  linarith

theorem pymod1_lt_one (x : ℚ) : pymod1 x < 1 := by
  unfold pymod1
  have h : x < ⌊x⌋ + 1 := Int.lt_floor_add_one x
  linarith

namespace AnsiColorManager

/-- A color in the 6×6×6 ANSI color cube: the three channel attributes
`r`, `g`, `b` of `AnsiColorManager.Color` (Python `self.r/self.g/self.b`). -/
structure Color where
  r : Int
  g : Int
  b : Int
deriving DecidableEq

/-- The constructor invariant of `Color.__init__`: each channel in `[0, 5]`. -/
def Color.valid (c : Color) : Prop :=
  0 ≤ c.r ∧ c.r ≤ 5 ∧ 0 ≤ c.g ∧ c.g ≤ 5 ∧ 0 ≤ c.b ∧ c.b ≤ 5

instance (c : Color) : Decidable c.valid := by
  unfold Color.valid
  exact inferInstance

/-- `Color.__init__`: validates the channels, raising `ValueError` (modelled as
`Except.error` with the source's message) when any channel is outside `[0,5]`,
and otherwise produces the color value. -/
def mkColor (r g b : Int) : Except String Color :=
  if 0 ≤ r ∧ r ≤ 5 ∧ 0 ≤ g ∧ g ≤ 5 ∧ 0 ≤ b ∧ b ≤ 5 then
    Except.ok ⟨r, g, b⟩
  else
    Except.error "RGB values must be in the range 0-5"

/-- `Color.ansi` / the `color_code` attribute: `16 + (r * 36) + (g * 6) + b`. -/
def Color.ansi (c : Color) : Int := 16 + (c.r * 36) + (c.g * 6) + c.b

/-- `Color.get_luminosity`: `0.2126 * r + 0.7152 * g + 0.0722 * b`. -/
def Color.get_luminosity (c : Color) : ℚ :=
  (2126 / 10000) * (c.r : ℚ) + (7152 / 10000) * (c.g : ℚ) + (722 / 10000) * (c.b : ℚ)

/-- `Color.get_contrasting_color`: darken toward 0 when luminosity ≥ 2.5,
otherwise lighten toward 5; the real-valued channels are truncated by `int()`
and passed to the validating constructor. -/
def Color.get_contrasting_color (c : Color) (percentage : Int) : Except String Color :=
  if c.get_luminosity ≥ 5 / 2 then
    mkColor
      (pyInt (max 0 ((c.r : ℚ) - (c.r : ℚ) * ((percentage : ℚ) / 100))))
      (pyInt (max 0 ((c.g : ℚ) - (c.g : ℚ) * ((percentage : ℚ) / 100))))
      (pyInt (max 0 ((c.b : ℚ) - (c.b : ℚ) * ((percentage : ℚ) / 100))))
  else
    mkColor
      (pyInt (min 5 ((c.r : ℚ) + (5 - (c.r : ℚ)) * ((percentage : ℚ) / 100))))
      (pyInt (min 5 ((c.g : ℚ) + (5 - (c.g : ℚ)) * ((percentage : ℚ) / 100))))
      (pyInt (min 5 ((c.b : ℚ) + (5 - (c.b : ℚ)) * ((percentage : ℚ) / 100))))

/-- `Color.get_complementary_color`: each channel replaced by `5 - channel`.
The Python method builds the result through the validating constructor; for a
valid input the validation always succeeds (`mkColor_complementary`). -/
def Color.get_complementary_color (c : Color) : Color :=
  ⟨5 - c.r, 5 - c.g, 5 - c.b⟩

/-- Modelled from the spec: the inverse of the ANSI-index encoding
(`index = 16 + 36r + 6g + b`), recovering the channel triple from an index.
The source has no such function; the spec's testable property asks that this
round-trips exactly. -/
def ansiInv (n : Int) : Int × Int × Int :=
  ((n - 16) / 36, ((n - 16) / 6) % 6, (n - 16) % 6)

/-- `colorsys.rgb_to_hls` (CPython), on exact rationals.  All divisors that are
actually reached are nonzero; ℚ's total division is never exercised at 0. -/
def rgb_to_hls (r g b : ℚ) : ℚ × ℚ × ℚ :=
  let maxc := max r (max g b)
  let minc := min r (min g b)
  let sumc := maxc + minc
  let rangec := maxc - minc
  let l := sumc / 2
  if minc = maxc then (0, l, 0)
  else
    let s := if l ≤ 1 / 2 then rangec / sumc else rangec / (2 - sumc)
    let rc := (maxc - r) / rangec
    let gc := (maxc - g) / rangec
    let bc := (maxc - b) / rangec
    let h :=
      if r = maxc then bc - gc
      else if g = maxc then 2 + rc - bc
      else 4 + gc - rc
    (pymod1 (h / 6), l, s)

/-- `colorsys._v`, the hue-sector interpolation helper of `hls_to_rgb`. -/
def v_hls (m1 m2 hue0 : ℚ) : ℚ :=
  if pymod1 hue0 < 1 / 6 then m1 + (m2 - m1) * pymod1 hue0 * 6
  else if pymod1 hue0 < 1 / 2 then m2
  else if pymod1 hue0 < 2 / 3 then m1 + (m2 - m1) * (2 / 3 - pymod1 hue0) * 6
  else m1

/-- `colorsys.hls_to_rgb` (CPython), on exact rationals. -/
def hls_to_rgb (h l s : ℚ) : ℚ × ℚ × ℚ :=
  if s = 0 then (l, l, l)
  else
    let m2 := if l ≤ 1 / 2 then l * (1 + s) else l + s - l * s
    let m1 := 2 * l - m2
    (v_hls m1 m2 (h + 1 / 3), v_hls m1 m2 h, v_hls m1 m2 (h - 1 / 3))

/-- The channel conversion applied by `calculate_analogous` to each component
`a ∈ [0,1]` coming back from `hls_to_rgb`: `int(a * 5 / 51)`. -/
def truncChan (a : ℚ) : Int := pyInt (a * 5 / 51)

/-- `calculate_analogous` (inner function of `generate_color_palette`): scale
the channels by 51, round-trip through HLS with hue shifted by ±1/12, and
truncate each resulting component with `int(a * 5 / 51)`. -/
def calculate_analogous (color : Color) : List Color :=
  let r := (color.r : ℚ) * 51
  let g := (color.g : ℚ) * 51
  let b := (color.b : ℚ) * 51
  let hls := rgb_to_hls (r / 255) (g / 255) (b / 255)
  let a1 := hls_to_rgb (pymod1 (hls.1 + 1 / 12)) hls.2.1 hls.2.2
  let a2 := hls_to_rgb (pymod1 (hls.1 - 1 / 12)) hls.2.1 hls.2.2
  [⟨truncChan a1.1, truncChan a1.2.1, truncChan a1.2.2⟩,
   ⟨truncChan a2.1, truncChan a2.2.1, truncChan a2.2.2⟩]

/-- Modelled from the spec: the reference analogous-hue computation, identical
to `calculate_analogous` except that the final step converts the `[0,1]`
components of `hls_to_rgb` back "into the 0–5 channel range via truncation",
i.e. undoes the `×51 / 255` input scaling with `int(a * 255 / 51)`. -/
def calculate_analogous_spec (color : Color) : List Color :=
  let r := (color.r : ℚ) * 51
  let g := (color.g : ℚ) * 51
  let b := (color.b : ℚ) * 51
  let hls := rgb_to_hls (r / 255) (g / 255) (b / 255)
  let a1 := hls_to_rgb (pymod1 (hls.1 + 1 / 12)) hls.2.1 hls.2.2
  let a2 := hls_to_rgb (pymod1 (hls.1 - 1 / 12)) hls.2.1 hls.2.2
  [⟨pyInt (a1.1 * 255 / 51), pyInt (a1.2.1 * 255 / 51), pyInt (a1.2.2 * 255 / 51)⟩,
   ⟨pyInt (a2.1 * 255 / 51), pyInt (a2.2.1 * 255 / 51), pyInt (a2.2.2 * 255 / 51)⟩]

/-- `calculate_shades_and_tints`: half- and third-step darken/lighten, with
Python floor division `//` (Lean's `Int` `/` on these nonnegative operands). -/
def calculate_shades_and_tints (color : Color) : List Color :=
  [⟨max 0 (color.r / 2), max 0 (color.g / 2), max 0 (color.b / 2)⟩,
   ⟨min 5 (color.r + (5 - color.r) / 2), min 5 (color.g + (5 - color.g) / 2),
    min 5 (color.b + (5 - color.b) / 2)⟩,
   ⟨max 0 (color.r / 3), max 0 (color.g / 3), max 0 (color.b / 3)⟩,
   ⟨min 5 (color.r + (5 - color.r) / 3), min 5 (color.g + (5 - color.g) / 3),
    min 5 (color.b + (5 - color.b) / 3)⟩]

/-- `add_neutral_colors`: the three fixed grays. -/
def add_neutral_colors : List Color := [⟨5, 5, 5⟩, ⟨1, 1, 1⟩, ⟨3, 3, 3⟩]

/-- `more_variations`: the six single-channel nudges of the base color. -/
def more_variations (base : Color) : List Color :=
  [⟨min 5 (base.r + 1), base.g, base.b⟩,
   ⟨base.r, min 5 (base.g + 1), base.b⟩,
   ⟨base.r, base.g, min 5 (base.b + 1)⟩,
   ⟨max 0 (base.r - 1), base.g, base.b⟩,
   ⟨base.r, max 0 (base.g - 1), base.b⟩,
   ⟨base.r, base.g, max 0 (base.b - 1)⟩]

/-- Adding one element to the accumulated Python `set`, kept as an
insertion-ordered duplicate-free list. -/
def insertColor (s : List Color) (c : Color) : List Color :=
  if c ∈ s then s else s ++ [c]

/-- `set.update`: fold `insertColor` over a list of new colors. -/
def insertAll (s : List Color) (cs : List Color) : List Color :=
  cs.foldl insertColor s

/-- The deterministic part of `generate_color_palette`: the set seeded with the
base color and grown, in source order, by the complementary color, the
analogous colors, the neutrals, the shades and tints, and the six variations. -/
def seedSet (base : Color) : List Color :=
  insertAll
    (insertAll
      (insertAll
        (insertAll (insertColor [base] base.get_complementary_color)
          (calculate_analogous base))
        add_neutral_colors)
      (calculate_shades_and_tints base))
    (more_variations base)

/-- One iteration's random draws in the jitter-fill loop: `sign` is
`random.choice([-1, 1])` (shared by the three channels) and `mr`, `mg`, `mb`
are the three independent `random.randint(1, 2)` magnitudes. -/
structure Jitter where
  sign : Int
  mr : Int
  mg : Int
  mb : Int
deriving DecidableEq

/-- The values the random draws of one jitter iteration can actually take. -/
def Jitter.valid (j : Jitter) : Prop :=
  (j.sign = -1 ∨ j.sign = 1) ∧ (j.mr = 1 ∨ j.mr = 2) ∧
    (j.mg = 1 ∨ j.mg = 2) ∧ (j.mb = 1 ∨ j.mb = 2)

instance (j : Jitter) : Decidable j.valid := by
  unfold Jitter.valid
  exact inferInstance

/-- The color built by one jitter iteration:
`(base_channel + jitter * randint(1,2)) % 6` on each channel. -/
def jitterColor (base : Color) (j : Jitter) : Color :=
  ⟨(base.r + j.sign * j.mr) % 6, (base.g + j.sign * j.mg) % 6, (base.b + j.sign * j.mb) % 6⟩

/-- The `while len(palette_set) < palette_size` jitter-fill loop, driven by the
explicit list of random draws; `none` models a run whose supplied draws are
exhausted before the set reaches `palette_size` (the Python loop would keep
drawing; a run that never reaches `palette_size` never terminates). -/
def jitterLoop (base : Color) (ps : Nat) : List Jitter → List Color → Option (List Color)
  | [], s => if ps ≤ s.length then some s else none
  | j :: rest, s =>
    if ps ≤ s.length then some s
    else jitterLoop base ps rest (insertColor s (jitterColor base j))

/-- `AnsiColorManager.generate_color_palette`: build the deterministic seed
set, run the jitter-fill loop on the random draws `js`, enumerate the final
set in the (implementation-defined) order `enum`, and keep the first
`palette_size` entries. -/
def generate_color_palette (base : Color) (palette_size : Nat) (js : List Jitter)
    (enum : List Color → List Color) : Option (List Color) :=
  (jitterLoop base palette_size js (seedSet base)).map
    (fun s => (enum s).take palette_size)

/-- The deterministic seed set with the analogous entries replaced by the
literal `(0,0,0)` they always evaluate to (`calculate_analogous_eq_zero`);
unlike `seedSet` this avoids rational arithmetic and can be evaluated by
`decide` at concrete bases. -/
def detSeed (base : Color) : List Color :=
  insertAll
    (insertAll
      (insertAll
        (insertAll (insertColor [base] base.get_complementary_color)
          [⟨0, 0, 0⟩, ⟨0, 0, 0⟩])
        add_neutral_colors)
      (calculate_shades_and_tints base))
    (more_variations base)

/-- All sixteen possible outcomes of one jitter iteration's random draws. -/
def js16 : List Jitter :=
  [⟨1, 1, 1, 1⟩, ⟨1, 1, 1, 2⟩, ⟨1, 1, 2, 1⟩, ⟨1, 1, 2, 2⟩,
   ⟨1, 2, 1, 1⟩, ⟨1, 2, 1, 2⟩, ⟨1, 2, 2, 1⟩, ⟨1, 2, 2, 2⟩,
   ⟨-1, 1, 1, 1⟩, ⟨-1, 1, 1, 2⟩, ⟨-1, 1, 2, 1⟩, ⟨-1, 1, 2, 2⟩,
   ⟨-1, 2, 1, 1⟩, ⟨-1, 2, 1, 2⟩, ⟨-1, 2, 2, 1⟩, ⟨-1, 2, 2, 2⟩]

/-- The set obtained by running every jitter of `js` through `insertColor`,
i.e. the final accumulated set of a loop run that consumed all of `js`. -/
def insertJit (base : Color) (s : List Color) (js : List Jitter) : List Color :=
  js.foldl (fun acc j => insertColor acc (jitterColor base j)) s

/-- Every color `generate_color_palette` can ever accumulate for the base
`(0,0,0)`: the eight distinct deterministic entries together with the sixteen
jitter-reachable colors `{1,2}³ ∪ {4,5}³`. -/
def reach000 : List Color :=
  [⟨0, 0, 0⟩, ⟨5, 5, 5⟩, ⟨1, 1, 1⟩, ⟨3, 3, 3⟩, ⟨2, 2, 2⟩,
   ⟨1, 0, 0⟩, ⟨0, 1, 0⟩, ⟨0, 0, 1⟩,
   ⟨1, 1, 1⟩, ⟨1, 1, 2⟩, ⟨1, 2, 1⟩, ⟨1, 2, 2⟩,
   ⟨2, 1, 1⟩, ⟨2, 1, 2⟩, ⟨2, 2, 1⟩, ⟨2, 2, 2⟩,
   ⟨4, 4, 4⟩, ⟨4, 4, 5⟩, ⟨4, 5, 4⟩, ⟨4, 5, 5⟩,
   ⟨5, 4, 4⟩, ⟨5, 4, 5⟩, ⟨5, 5, 4⟩, ⟨5, 5, 5⟩]

theorem mkColor_complementary (c : Color) (hc : c.valid) :
    mkColor (5 - c.r) (5 - c.g) (5 - c.b) = Except.ok c.get_complementary_color := by
  obtain ⟨h1, h2, h3, h4, h5, h6⟩ := hc
  unfold mkColor Color.get_complementary_color
  rw [if_pos]
  omega

theorem v_hls_mem (m1 m2 hue : ℚ) (h1 : 0 ≤ m1) (h2 : m1 ≤ m2) (h3 : m2 ≤ 1) :
    0 ≤ v_hls m1 m2 hue ∧ v_hls m1 m2 hue ≤ 1 := by
  have p0 : 0 ≤ pymod1 hue := pymod1_nonneg hue
  have p1 : pymod1 hue < 1 := pymod1_lt_one hue
  unfold v_hls
  split_ifs with c1 c2 c3
  · constructor <;> nlinarith
  · exact ⟨le_trans h1 h2, h3⟩
  · constructor <;> nlinarith
  · exact ⟨h1, le_trans h2 h3⟩

theorem rgb_to_hls_l_s_mem (r g b : ℚ)
    (hr : 0 ≤ r ∧ r ≤ 1) (hg : 0 ≤ g ∧ g ≤ 1) (hb : 0 ≤ b ∧ b ≤ 1) :
    0 ≤ (rgb_to_hls r g b).2.1 ∧ (rgb_to_hls r g b).2.1 ≤ 1 ∧
    0 ≤ (rgb_to_hls r g b).2.2 ∧ (rgb_to_hls r g b).2.2 ≤ 1 := by
  have hmax1 : max r (max g b) ≤ 1 := max_le hr.2 (max_le hg.2 hb.2)
  have hmin0 : 0 ≤ min r (min g b) := le_min hr.1 (le_min hg.1 hb.1)
  have hminmax : min r (min g b) ≤ max r (max g b) :=
    le_trans (min_le_left _ _) (le_max_left _ _)
  simp only [rgb_to_hls]
  by_cases heq : min r (min g b) = max r (max g b)
  · rw [if_pos heq]
    exact ⟨by linarith, by linarith, le_refl 0, by norm_num⟩
  · rw [if_neg heq]
    have hlt : min r (min g b) < max r (max g b) := lt_of_le_of_ne hminmax heq
    dsimp only
    by_cases hle : (max r (max g b) + min r (min g b)) / 2 ≤ 1 / 2
    · rw [if_pos hle]
      have hpos : 0 < max r (max g b) + min r (min g b) := by linarith
      refine ⟨by linarith, by linarith, ?_, ?_⟩
      · exact div_nonneg (by linarith) (le_of_lt hpos)
      · rw [div_le_one hpos]
        linarith
    · rw [if_neg hle]
      have hpos : 0 < 2 - (max r (max g b) + min r (min g b)) := by linarith
      refine ⟨by linarith, by linarith, ?_, ?_⟩
      · exact div_nonneg (by linarith) (le_of_lt hpos)
      · rw [div_le_one hpos]
        linarith

theorem hls_to_rgb_mem (h l s : ℚ) (hl0 : 0 ≤ l) (hl1 : l ≤ 1)
    (hs0 : 0 ≤ s) (hs1 : s ≤ 1) :
    (0 ≤ (hls_to_rgb h l s).1 ∧ (hls_to_rgb h l s).1 ≤ 1) ∧
    (0 ≤ (hls_to_rgb h l s).2.1 ∧ (hls_to_rgb h l s).2.1 ≤ 1) ∧
    (0 ≤ (hls_to_rgb h l s).2.2 ∧ (hls_to_rgb h l s).2.2 ≤ 1) := by
  simp only [hls_to_rgb]
  split_ifs with hs hle
  · exact ⟨⟨hl0, hl1⟩, ⟨hl0, hl1⟩, ⟨hl0, hl1⟩⟩
  · have hm2a : 0 ≤ l * (1 + s) := by nlinarith
    have hm2b : l * (1 + s) ≤ 1 := by nlinarith
    have hm1a : 0 ≤ 2 * l - l * (1 + s) := by nlinarith
    have hm1b : 2 * l - l * (1 + s) ≤ l * (1 + s) := by nlinarith
    exact ⟨v_hls_mem _ _ _ hm1a hm1b hm2b, v_hls_mem _ _ _ hm1a hm1b hm2b,
      v_hls_mem _ _ _ hm1a hm1b hm2b⟩
  · have hm2a : 0 ≤ l + s - l * s := by nlinarith
    have hm2b : l + s - l * s ≤ 1 := by nlinarith
    have hm1a : 0 ≤ 2 * l - (l + s - l * s) := by nlinarith
    have hm1b : 2 * l - (l + s - l * s) ≤ l + s - l * s := by nlinarith
    exact ⟨v_hls_mem _ _ _ hm1a hm1b hm2b, v_hls_mem _ _ _ hm1a hm1b hm2b,
      v_hls_mem _ _ _ hm1a hm1b hm2b⟩

theorem truncChan_eq_zero (a : ℚ) (h0 : 0 ≤ a) (h1 : a ≤ 1) : truncChan a = 0 := by
  unfold truncChan
  apply pyInt_eq_zero
  · positivity
  · nlinarith

/-- The code's analogous-hue computation collapses to black for every valid
base: `hls_to_rgb` returns components in `[0,1]`, so `int(a * 5 / 51)` — which
divides by 51 instead of multiplying back to the 0–255 range — truncates every
channel to 0. -/
theorem calculate_analogous_eq_zero (base : Color) (hb : base.valid) :
    calculate_analogous base = [⟨0, 0, 0⟩, ⟨0, 0, 0⟩] := by
  obtain ⟨h1, h2, h3, h4, h5, h6⟩ := hb
  have hr2 : (base.r : ℚ) ≤ 5 := by exact_mod_cast h2
  have hg2 : (base.g : ℚ) ≤ 5 := by exact_mod_cast h4
  have hb2 : (base.b : ℚ) ≤ 5 := by exact_mod_cast h6
  have hr1 : (0 : ℚ) ≤ (base.r : ℚ) := by exact_mod_cast h1
  have hg1 : (0 : ℚ) ≤ (base.g : ℚ) := by exact_mod_cast h3
  have hb1 : (0 : ℚ) ≤ (base.b : ℚ) := by exact_mod_cast h5
  have hrm : 0 ≤ (base.r : ℚ) * 51 / 255 ∧ (base.r : ℚ) * 51 / 255 ≤ 1 :=
    ⟨by positivity, by rw [div_le_one (by norm_num)]; nlinarith⟩
  have hgm : 0 ≤ (base.g : ℚ) * 51 / 255 ∧ (base.g : ℚ) * 51 / 255 ≤ 1 :=
    ⟨by positivity, by rw [div_le_one (by norm_num)]; nlinarith⟩
  have hbm : 0 ≤ (base.b : ℚ) * 51 / 255 ∧ (base.b : ℚ) * 51 / 255 ≤ 1 :=
    ⟨by positivity, by rw [div_le_one (by norm_num)]; nlinarith⟩
  simp only [calculate_analogous]
  obtain ⟨hl0, hl1, hs0, hs1⟩ := rgb_to_hls_l_s_mem _ _ _ hrm hgm hbm
  obtain ⟨⟨p1, p2⟩, ⟨p3, p4⟩, ⟨p5, p6⟩⟩ :=
    hls_to_rgb_mem
      (pymod1 ((rgb_to_hls ((base.r : ℚ) * 51 / 255) ((base.g : ℚ) * 51 / 255)
        ((base.b : ℚ) * 51 / 255)).1 + 1 / 12)) _ _ hl0 hl1 hs0 hs1
  obtain ⟨⟨q1, q2⟩, ⟨q3, q4⟩, ⟨q5, q6⟩⟩ :=
    hls_to_rgb_mem
      (pymod1 ((rgb_to_hls ((base.r : ℚ) * 51 / 255) ((base.g : ℚ) * 51 / 255)
        ((base.b : ℚ) * 51 / 255)).1 - 1 / 12)) _ _ hl0 hl1 hs0 hs1
  rw [truncChan_eq_zero _ p1 p2, truncChan_eq_zero _ p3 p4, truncChan_eq_zero _ p5 p6,
    truncChan_eq_zero _ q1 q2, truncChan_eq_zero _ q3 q4, truncChan_eq_zero _ q5 q6]

theorem mkColor_ok_of_bounds {a b c : Int}
    (h : 0 ≤ a ∧ a ≤ 5 ∧ 0 ≤ b ∧ b ≤ 5 ∧ 0 ≤ c ∧ c ≤ 5) :
    mkColor a b c = Except.ok ⟨a, b, c⟩ ∧ (⟨a, b, c⟩ : Color).valid := by
  unfold mkColor
  rw [if_pos h]
  exact ⟨rfl, h⟩

theorem pyInt_max_eval (x : ℚ) (n : Int) (hx : x = (n : ℚ)) (hn : 0 ≤ n) :
    pyInt (max 0 x) = n := by
  rw [hx, max_eq_right (by exact_mod_cast hn), pyInt_intCast]

theorem darken_bounds (x q : ℚ) (hx0 : 0 ≤ x) (hx5 : x ≤ 5) (hq0 : 0 ≤ q) :
    0 ≤ pyInt (max 0 (x - x * q)) ∧ pyInt (max 0 (x - x * q)) ≤ 5 := by
  have h1 : (0 : ℚ) ≤ max 0 (x - x * q) := le_max_left _ _
  have h2 : max 0 (x - x * q) ≤ 5 := by
    apply max_le (by norm_num)
    nlinarith
  exact ⟨pyInt_nonneg h1, pyInt_le_five h1 h2⟩

theorem lighten_bounds (x q : ℚ) (hx0 : 0 ≤ x) (hx5 : x ≤ 5) (hq0 : 0 ≤ q) :
    0 ≤ pyInt (min 5 (x + (5 - x) * q)) ∧ pyInt (min 5 (x + (5 - x) * q)) ≤ 5 := by
  have h2 : min 5 (x + (5 - x) * q) ≤ 5 := min_le_left _ _
  have h1 : (0 : ℚ) ≤ min 5 (x + (5 - x) * q) := by
    apply le_min (by norm_num)
    nlinarith
  exact ⟨pyInt_nonneg h1, pyInt_le_five h1 h2⟩

theorem mem_insertColor_self (s : List Color) (c : Color) : c ∈ insertColor s c := by
  unfold insertColor
  split_ifs with h
  · exact h
  · simp

theorem mem_insertColor_of_mem {s : List Color} {x : Color} (hx : x ∈ s) (c : Color) :
    x ∈ insertColor s c := by
  unfold insertColor
  split_ifs with h
  · exact hx
  · simp [hx]

theorem mem_insertColor {s : List Color} {x c : Color} :
    x ∈ insertColor s c ↔ x ∈ s ∨ x = c := by
  unfold insertColor
  split_ifs with h
  · refine ⟨Or.inl, ?_⟩
    rintro (hx | rfl)
    · exact hx
    · exact h
  · simp [List.mem_append]

theorem insertColor_eq_of_mem {s : List Color} {c : Color} (h : c ∈ s) :
    insertColor s c = s := if_pos h

theorem nodup_insertColor {s : List Color} (hs : s.Nodup) (c : Color) :
    (insertColor s c).Nodup := by
  unfold insertColor
  split_ifs with h
  · exact hs
  · rw [List.nodup_append]
    refine ⟨hs, List.nodup_singleton c, ?_⟩
    intro x hx hx1
    rw [List.mem_singleton] at hx1
    subst hx1
    exact h hx

theorem length_insertColor_le (s : List Color) (c : Color) :
    (insertColor s c).length ≤ s.length + 1 := by
  unfold insertColor
  split_ifs with h
  · omega
  · simp

theorem mem_insertAll_of_mem {x : Color} (cs : List Color) (s : List Color) (hx : x ∈ s) :
    x ∈ insertAll s cs := by
  induction cs generalizing s with
  | nil => exact hx
  | cons c cs ih => exact ih _ (mem_insertColor_of_mem hx c)

theorem mem_insertAll_of_mem_list {x : Color} (cs : List Color) (s : List Color)
    (hx : x ∈ cs) : x ∈ insertAll s cs := by
  induction cs generalizing s with
  | nil => cases hx
  | cons c cs ih =>
    rcases List.mem_cons.mp hx with rfl | h
    · exact mem_insertAll_of_mem cs _ (mem_insertColor_self s x)
    · exact ih _ h

theorem nodup_insertAll (cs : List Color) (s : List Color) (hs : s.Nodup) :
    (insertAll s cs).Nodup := by
  induction cs generalizing s with
  | nil => exact hs
  | cons c cs ih => exact ih _ (nodup_insertColor hs c)

theorem length_insertAll_le (cs : List Color) (s : List Color) :
    (insertAll s cs).length ≤ s.length + cs.length := by
  induction cs generalizing s with
  | nil => simp [insertAll]
  | cons c cs ih =>
    have h1 := ih (insertColor s c)
    have h2 := length_insertColor_le s c
    have h3 : insertAll s (c :: cs) = insertAll (insertColor s c) cs := rfl
    rw [h3]
    simp only [List.length_cons]
    omega

theorem jitterLoop_nil (base : Color) (ps : Nat) (s : List Color) :
    jitterLoop base ps [] s = if ps ≤ s.length then some s else none := rfl

theorem jitterLoop_cons (base : Color) (ps : Nat) (j : Jitter) (js : List Jitter)
    (s : List Color) :
    jitterLoop base ps (j :: js) s =
      if ps ≤ s.length then some s
      else jitterLoop base ps js (insertColor s (jitterColor base j)) := rfl

theorem jitterLoop_some_length (base : Color) (ps : Nat) (js : List Jitter) :
    ∀ s t, jitterLoop base ps js s = some t → ps ≤ t.length := by
  induction js with
  | nil =>
    intro s t h
    rw [jitterLoop_nil] at h
    by_cases hle : ps ≤ s.length
    · rw [if_pos hle] at h
      exact Option.some.inj h ▸ hle
    · rw [if_neg hle] at h
      exact Option.noConfusion h
  | cons j js ih =>
    intro s t h
    rw [jitterLoop_cons] at h
    by_cases hle : ps ≤ s.length
    · rw [if_pos hle] at h
      exact Option.some.inj h ▸ hle
    · rw [if_neg hle] at h
      exact ih _ _ h

theorem jitterLoop_length_le (base : Color) (ps : Nat) (js : List Jitter) :
    ∀ s t, s.length ≤ ps → jitterLoop base ps js s = some t → t.length ≤ ps := by
  induction js with
  | nil =>
    intro s t hs h
    rw [jitterLoop_nil] at h
    by_cases hle : ps ≤ s.length
    · rw [if_pos hle] at h
      exact Option.some.inj h ▸ hs
    · rw [if_neg hle] at h
      exact Option.noConfusion h
  | cons j js ih =>
    intro s t hs h
    rw [jitterLoop_cons] at h
    by_cases hle : ps ≤ s.length
    · rw [if_pos hle] at h
      exact Option.some.inj h ▸ hs
    · rw [if_neg hle] at h
      have h2 := length_insertColor_le s (jitterColor base j)
      exact ih _ _ (by omega) h

theorem jitterLoop_mem (base : Color) (ps : Nat) (js : List Jitter) :
    ∀ s t x, x ∈ s → jitterLoop base ps js s = some t → x ∈ t := by
  induction js with
  | nil =>
    intro s t x hx h
    rw [jitterLoop_nil] at h
    by_cases hle : ps ≤ s.length
    · rw [if_pos hle] at h
      exact Option.some.inj h ▸ hx
    · rw [if_neg hle] at h
      exact Option.noConfusion h
  | cons j js ih =>
    intro s t x hx h
    rw [jitterLoop_cons] at h
    by_cases hle : ps ≤ s.length
    · rw [if_pos hle] at h
      exact Option.some.inj h ▸ hx
    · rw [if_neg hle] at h
      exact ih _ _ _ (mem_insertColor_of_mem hx _) h

theorem jitterLoop_nodup (base : Color) (ps : Nat) (js : List Jitter) :
    ∀ s t, s.Nodup → jitterLoop base ps js s = some t → t.Nodup := by
  induction js with
  | nil =>
    intro s t hs h
    rw [jitterLoop_nil] at h
    by_cases hle : ps ≤ s.length
    · rw [if_pos hle] at h
      exact Option.some.inj h ▸ hs
    · rw [if_neg hle] at h
      exact Option.noConfusion h
  | cons j js ih =>
    intro s t hs h
    rw [jitterLoop_cons] at h
    by_cases hle : ps ≤ s.length
    · rw [if_pos hle] at h
      exact Option.some.inj h ▸ hs
    · rw [if_neg hle] at h
      exact ih _ _ (nodup_insertColor hs _) h

theorem jitterLoop_subset (base : Color) (ps : Nat) (R : List Color) :
    ∀ js : List Jitter, (∀ j ∈ js, jitterColor base j ∈ R) →
      ∀ s t, (∀ x ∈ s, x ∈ R) → jitterLoop base ps js s = some t → ∀ x ∈ t, x ∈ R := by
  intro js
  induction js with
  | nil =>
    intro _ s t hs h
    rw [jitterLoop_nil] at h
    by_cases hle : ps ≤ s.length
    · rw [if_pos hle] at h
      exact Option.some.inj h ▸ hs
    · rw [if_neg hle] at h
      exact Option.noConfusion h
  | cons j js ih =>
    intro hstep s t hs h
    rw [jitterLoop_cons] at h
    by_cases hle : ps ≤ s.length
    · rw [if_pos hle] at h
      exact Option.some.inj h ▸ hs
    · rw [if_neg hle] at h
      refine ih (fun j2 hj2 => hstep j2 (List.mem_cons_of_mem _ hj2)) _ _ ?_ h
      intro x hx
      rcases mem_insertColor.mp hx with hx2 | rfl
      · exact hs x hx2
      · exact hstep j (List.mem_cons_self _ _)

theorem jitterLoop_none (base : Color) (ps : Nat) :
    ∀ js s, jitterLoop base ps js s = none → (insertJit base s js).length < ps := by
  intro js
  induction js with
  | nil =>
    intro s h
    rw [jitterLoop_nil] at h
    by_cases hle : ps ≤ s.length
    · rw [if_pos hle] at h
      exact Option.noConfusion h
    · have heq : insertJit base s [] = s := rfl
      rw [heq]
      omega
  | cons j js ih =>
    intro s h
    rw [jitterLoop_cons] at h
    by_cases hle : ps ≤ s.length
    · rw [if_pos hle] at h
      exact Option.noConfusion h
    · rw [if_neg hle] at h
      have heq : insertJit base s (j :: js) =
          insertJit base (insertColor s (jitterColor base j)) js := rfl
      rw [heq]
      exact ih _ h

theorem mem_insertJit_of_mem (base : Color) {x : Color} :
    ∀ (js : List Jitter) (s : List Color), x ∈ s → x ∈ insertJit base s js := by
  intro js
  induction js with
  | nil => exact fun s hx => hx
  | cons j js ih => exact fun s hx => ih _ (mem_insertColor_of_mem hx _)

theorem jitterColor_mem_insertJit (base : Color) {j : Jitter} :
    ∀ (js : List Jitter) (s : List Color), j ∈ js → jitterColor base j ∈ insertJit base s js := by
  intro js
  induction js with
  | nil => intro s h; cases h
  | cons j2 js ih =>
    intro s h
    rcases List.mem_cons.mp h with rfl | h2
    · exact mem_insertJit_of_mem base js _ (mem_insertColor_self s _)
    · exact ih _ h2
theorem js16_valid : ∀ j ∈ js16, j.valid := by decide

theorem js16_nodup : js16.Nodup := by decide

theorem jitterColor_inj (base : Color) (hb : base.valid) :
    ∀ j ∈ js16, ∀ j2 ∈ js16, jitterColor base j = jitterColor base j2 → j = j2 := by
  intro j hj j2 hj2 heq
  have v1 := js16_valid j hj
  have v2 := js16_valid j2 hj2
  obtain ⟨hr0, hr5, hg0, hg5, hb0, hb5⟩ := hb
  obtain ⟨s1, m1, n1, k1⟩ := j
  obtain ⟨s2, m2, n2, k2⟩ := j2
  obtain ⟨vs1, vm1, vn1, vk1⟩ := v1
  obtain ⟨vs2, vm2, vn2, vk2⟩ := v2
  replace vs1 : s1 = -1 ∨ s1 = 1 := vs1
  replace vm1 : m1 = 1 ∨ m1 = 2 := vm1
  replace vn1 : n1 = 1 ∨ n1 = 2 := vn1
  replace vk1 : k1 = 1 ∨ k1 = 2 := vk1
  replace vs2 : s2 = -1 ∨ s2 = 1 := vs2
  replace vm2 : m2 = 1 ∨ m2 = 2 := vm2
  replace vn2 : n2 = 1 ∨ n2 = 2 := vn2
  replace vk2 : k2 = 1 ∨ k2 = 2 := vk2
  simp only [jitterColor, Color.mk.injEq] at heq
  simp only [Jitter.mk.injEq]
  rcases vs1 with rfl | rfl <;> rcases vs2 with rfl | rfl <;> omega

theorem base_not_mem_jitter_map (base : Color) (hb : base.valid) :
    base ∉ js16.map (jitterColor base) := by
  intro hmem
  rw [List.mem_map] at hmem
  obtain ⟨j, hj, heq⟩ := hmem
  have v := js16_valid j hj
  obtain ⟨br, bg, bb⟩ := base
  obtain ⟨hr0, hr5, hg0, hg5, hb0, hb5⟩ := hb
  replace hr0 : 0 ≤ br := hr0
  replace hr5 : br ≤ 5 := hr5
  obtain ⟨s1, m1, n1, k1⟩ := j
  obtain ⟨vs, vm, vn, vk⟩ := v
  replace vs : s1 = -1 ∨ s1 = 1 := vs
  replace vm : m1 = 1 ∨ m1 = 2 := vm
  simp only [jitterColor, Color.mk.injEq] at heq
  rcases vs with rfl | rfl <;> omega

theorem nodup_seventeen (base : Color) (hb : base.valid) :
    (base :: js16.map (jitterColor base)).Nodup := by
  rw [List.nodup_cons]
  exact ⟨base_not_mem_jitter_map base hb, js16_nodup.map_on (jitterColor_inj base hb)⟩

/-- Claim C5: constructing a `Color` raises the `InvalidChannel` error exactly
when some channel argument lies outside `[0,5]`, and succeeds (yielding the
channel triple unchanged) when all three are inside. -/
theorem C5_construct_validation (r g b : Int) :
    (mkColor r g b = Except.error "RGB values must be in the range 0-5" ↔
      (r < 0 ∨ 5 < r ∨ g < 0 ∨ 5 < g ∨ b < 0 ∨ 5 < b)) ∧
    ((0 ≤ r ∧ r ≤ 5 ∧ 0 ≤ g ∧ g ≤ 5 ∧ 0 ≤ b ∧ b ≤ 5) →
      mkColor r g b = Except.ok ⟨r, g, b⟩) := by
  unfold mkColor
  split_ifs with hif
  · refine ⟨⟨fun h => absurd h (by simp), fun h => by omega⟩, fun _ => rfl⟩
  · refine ⟨⟨fun _ => by omega, fun _ => rfl⟩, fun h => absurd h hif⟩

theorem C5_construct_validation_witness :
    mkColor (-1) 0 0 = Except.error "RGB values must be in the range 0-5" ∧
    mkColor 6 0 0 = Except.error "RGB values must be in the range 0-5" ∧
    mkColor 0 2 5 = Except.ok ⟨0, 2, 5⟩ :=
  ⟨(C5_construct_validation (-1) 0 0).1.mpr (by omega),
   (C5_construct_validation 6 0 0).1.mpr (by omega),
   (C5_construct_validation 0 2 5).2 (by omega)⟩

/-- Claim C9: for a valid color the ANSI index is `16 + 36r + 6g + b`, lies in
`[16, 231]`, round-trips through the inverse mapping, and the encoding is
injective on valid colors. -/
theorem C9_ansi_encoding (c : Color) (hc : c.valid) :
    c.ansi = 16 + 36 * c.r + 6 * c.g + c.b ∧
    16 ≤ c.ansi ∧ c.ansi ≤ 231 ∧
    ansiInv c.ansi = (c.r, c.g, c.b) ∧
    ∀ d : Color, d.valid → d.ansi = c.ansi → d = c := by
  obtain ⟨r, g, b⟩ := c
  obtain ⟨h1, h2, h3, h4, h5, h6⟩ := hc
  replace h1 : 0 ≤ r := h1
  replace h2 : r ≤ 5 := h2
  replace h3 : 0 ≤ g := h3
  replace h4 : g ≤ 5 := h4
  replace h5 : 0 ≤ b := h5
  replace h6 : b ≤ 5 := h6
  refine ⟨by simp only [Color.ansi]; ring, ?_, ?_, ?_, ?_⟩
  · simp only [Color.ansi]
    omega
  · simp only [Color.ansi]
    omega
  · simp only [Color.ansi, ansiInv, Prod.mk.injEq]
    omega
  · intro d hd he
    obtain ⟨r2, g2, b2⟩ := d
    obtain ⟨k1, k2, k3, k4, k5, k6⟩ := hd
    replace k1 : 0 ≤ r2 := k1
    replace k2 : r2 ≤ 5 := k2
    replace k3 : 0 ≤ g2 := k3
    replace k4 : g2 ≤ 5 := k4
    replace k5 : 0 ≤ b2 := k5
    replace k6 : b2 ≤ 5 := k6
    simp only [Color.ansi] at he
    simp only [Color.mk.injEq]
    omega

theorem C9_ansi_encoding_witness :
    (⟨1, 2, 3⟩ : Color).valid ∧
    ((⟨1, 2, 3⟩ : Color).ansi = 16 + 36 * 1 + 6 * 2 + 3 ∧
      16 ≤ (⟨1, 2, 3⟩ : Color).ansi ∧ (⟨1, 2, 3⟩ : Color).ansi ≤ 231 ∧
      ansiInv (⟨1, 2, 3⟩ : Color).ansi = (1, 2, 3) ∧
      ∀ d : Color, d.valid → d.ansi = (⟨1, 2, 3⟩ : Color).ansi → d = ⟨1, 2, 3⟩) :=
  ⟨by decide, C9_ansi_encoding ⟨1, 2, 3⟩ (by decide)⟩

/-- Claim C8: `get_complementary_color` is an involution on valid colors. -/
theorem C8_complementary_involution (c : Color) (hc : c.valid) :
    c.get_complementary_color.get_complementary_color = c := by
  obtain ⟨r, g, b⟩ := c
  simp only [Color.get_complementary_color, Color.mk.injEq]
  omega

theorem C8_complementary_involution_witness :
    (⟨0, 3, 5⟩ : Color).valid ∧
    (⟨0, 3, 5⟩ : Color).get_complementary_color.get_complementary_color = ⟨0, 3, 5⟩ :=
  ⟨by decide, C8_complementary_involution ⟨0, 3, 5⟩ (by decide)⟩

/-- Claim C7: at 0% contrast `get_contrasting_color` returns the original
color, whichever luminosity branch is taken. -/
theorem C7_contrast_zero_identity (c : Color) (hc : c.valid) :
    c.get_contrasting_color 0 = Except.ok c := by
  obtain ⟨h1, h2, h3, h4, h5, h6⟩ := hc
  have hr0 : (0 : ℚ) ≤ (c.r : ℚ) := by exact_mod_cast h1
  have hg0 : (0 : ℚ) ≤ (c.g : ℚ) := by exact_mod_cast h3
  have hb0 : (0 : ℚ) ≤ (c.b : ℚ) := by exact_mod_cast h5
  have hr5 : (c.r : ℚ) ≤ 5 := by exact_mod_cast h2
  have hg5 : (c.g : ℚ) ≤ 5 := by exact_mod_cast h4
  have hb5 : (c.b : ℚ) ≤ 5 := by exact_mod_cast h6
  unfold Color.get_contrasting_color
  split_ifs with hl
  · simp only [Int.cast_zero, zero_div, mul_zero, sub_zero]
    rw [max_eq_right hr0, max_eq_right hg0, max_eq_right hb0,
      pyInt_intCast, pyInt_intCast, pyInt_intCast]
    unfold mkColor
    rw [if_pos ⟨h1, h2, h3, h4, h5, h6⟩]
  · simp only [Int.cast_zero, zero_div, mul_zero, add_zero]
    rw [min_eq_right hr5, min_eq_right hg5, min_eq_right hb5,
      pyInt_intCast, pyInt_intCast, pyInt_intCast]
    unfold mkColor
    rw [if_pos ⟨h1, h2, h3, h4, h5, h6⟩]

theorem C7_contrast_zero_identity_witness :
    (⟨5, 5, 5⟩ : Color).get_contrasting_color 0 = Except.ok ⟨5, 5, 5⟩ ∧
    (⟨0, 0, 0⟩ : Color).get_contrasting_color 0 = Except.ok ⟨0, 0, 0⟩ :=
  ⟨C7_contrast_zero_identity ⟨5, 5, 5⟩ (by decide),
   C7_contrast_zero_identity ⟨0, 0, 0⟩ (by decide)⟩

/-- Claim C6 counterexample: `get_contrasting_color` is not total over all
integer percentages — at the valid color `(5,5,5)` and percentage `-100` the
darken branch computes channel `10`, which the constructor rejects. -/
theorem C6_counterexample :
    (⟨5, 5, 5⟩ : Color).valid ∧
    (⟨5, 5, 5⟩ : Color).get_contrasting_color (-100) =
      Except.error "RGB values must be in the range 0-5" := by
  refine ⟨by decide, ?_⟩
  unfold Color.get_contrasting_color
  rw [if_pos (by unfold Color.get_luminosity; norm_num)]
  rw [pyInt_max_eval _ 10 (by push_cast; norm_num) (by norm_num)]
  rfl

/-- Claim C6 (amended): `get_contrasting_color` returns normally on every
valid color for every percentage in `[0, 100]`; the derived channels are
always accepted by the constructor and the result is again valid. -/
theorem C6_amended_contrast_total_in_range (c : Color) (hc : c.valid)
    (p : Int) (hp0 : 0 ≤ p) (hp1 : p ≤ 100) :
    ∃ d : Color, c.get_contrasting_color p = Except.ok d ∧ d.valid := by
  obtain ⟨h1, h2, h3, h4, h5, h6⟩ := hc
  have hr0 : (0 : ℚ) ≤ (c.r : ℚ) := by exact_mod_cast h1
  have hg0 : (0 : ℚ) ≤ (c.g : ℚ) := by exact_mod_cast h3
  have hb0 : (0 : ℚ) ≤ (c.b : ℚ) := by exact_mod_cast h5
  have hr5 : (c.r : ℚ) ≤ 5 := by exact_mod_cast h2
  have hg5 : (c.g : ℚ) ≤ 5 := by exact_mod_cast h4
  have hb5 : (c.b : ℚ) ≤ 5 := by exact_mod_cast h6
  have hq0 : (0 : ℚ) ≤ (p : ℚ) / 100 := by positivity
  unfold Color.get_contrasting_color
  split_ifs with hl
  · obtain ⟨ra, rb⟩ := darken_bounds _ _ hr0 hr5 hq0
    obtain ⟨ga, gb⟩ := darken_bounds _ _ hg0 hg5 hq0
    obtain ⟨ba, bb⟩ := darken_bounds _ _ hb0 hb5 hq0
    obtain ⟨hok, hval⟩ := mkColor_ok_of_bounds ⟨ra, rb, ga, gb, ba, bb⟩
    exact ⟨_, hok, hval⟩
  · obtain ⟨ra, rb⟩ := lighten_bounds _ _ hr0 hr5 hq0
    obtain ⟨ga, gb⟩ := lighten_bounds _ _ hg0 hg5 hq0
    obtain ⟨ba, bb⟩ := lighten_bounds _ _ hb0 hb5 hq0
    obtain ⟨hok, hval⟩ := mkColor_ok_of_bounds ⟨ra, rb, ga, gb, ba, bb⟩
    exact ⟨_, hok, hval⟩

theorem C6_amended_contrast_total_in_range_witness :
    (⟨3, 3, 3⟩ : Color).valid ∧
    ∃ d : Color, (⟨3, 3, 3⟩ : Color).get_contrasting_color 50 = Except.ok d ∧ d.valid :=
  ⟨by decide,
   C6_amended_contrast_total_in_range ⟨3, 3, 3⟩ (by decide) 50 (by decide) (by decide)⟩

/-- Claim C10: `generate_color_palette` does not validate `palette_size`; at
size 0 it returns normally with the empty collection, for every run of the
random draws and every set-enumeration order. -/
theorem C10_size_zero (base : Color) (hb : base.valid) (js : List Jitter)
    (enum : List Color → List Color) :
    generate_color_palette base 0 js enum = some [] := by
  unfold generate_color_palette
  have h : jitterLoop base 0 js (seedSet base) = some (seedSet base) := by
    cases js <;> simp [jitterLoop]
  rw [h]
  simp

theorem C10_size_zero_witness :
    generate_color_palette ⟨0, 2, 2⟩ 0 [] id = some [] :=
  C10_size_zero ⟨0, 2, 2⟩ (by decide) [] id

theorem base_mem_seedSet (base : Color) : base ∈ seedSet base :=
  mem_insertAll_of_mem _ _ (mem_insertAll_of_mem _ _ (mem_insertAll_of_mem _ _
    (mem_insertAll_of_mem _ _ (mem_insertColor_of_mem (List.mem_singleton_self base) _))))

theorem compl_mem_seedSet (base : Color) : base.get_complementary_color ∈ seedSet base :=
  mem_insertAll_of_mem _ _ (mem_insertAll_of_mem _ _ (mem_insertAll_of_mem _ _
    (mem_insertAll_of_mem _ _ (mem_insertColor_self _ _))))

theorem nodup_seedSet (base : Color) : (seedSet base).Nodup :=
  nodup_insertAll _ _ (nodup_insertAll _ _ (nodup_insertAll _ _ (nodup_insertAll _ _
    (nodup_insertColor (List.nodup_singleton base) _))))

theorem seedSet_eq_det (base : Color) (hb : base.valid) : seedSet base = detSeed base := by
  unfold seedSet detSeed
  rw [calculate_analogous_eq_zero base hb]

theorem seedSet_length_le (base : Color) (hb : base.valid) :
    (seedSet base).length ≤ 16 := by
  have e1 : (insertColor [base] base.get_complementary_color).length ≤ 2 := by
    have h := length_insertColor_le [base] base.get_complementary_color
    simpa using h
  have e2 : (insertAll (insertColor [base] base.get_complementary_color)
      [(⟨0, 0, 0⟩ : Color), ⟨0, 0, 0⟩]).length ≤ 3 := by
    have heq : insertAll (insertColor [base] base.get_complementary_color)
        [(⟨0, 0, 0⟩ : Color), ⟨0, 0, 0⟩] =
        insertColor (insertColor (insertColor [base] base.get_complementary_color)
          ⟨0, 0, 0⟩) ⟨0, 0, 0⟩ := rfl
    rw [heq, insertColor_eq_of_mem (mem_insertColor_self _ _)]
    have h := length_insertColor_le (insertColor [base] base.get_complementary_color)
      (⟨0, 0, 0⟩ : Color)
    omega
  have e3 := length_insertAll_le add_neutral_colors
    (insertAll (insertColor [base] base.get_complementary_color)
      [(⟨0, 0, 0⟩ : Color), ⟨0, 0, 0⟩])
  have e4 := length_insertAll_le (calculate_shades_and_tints base)
    (insertAll (insertAll (insertColor [base] base.get_complementary_color)
      [(⟨0, 0, 0⟩ : Color), ⟨0, 0, 0⟩]) add_neutral_colors)
  have e5 := length_insertAll_le (more_variations base)
    (insertAll (insertAll (insertAll (insertColor [base] base.get_complementary_color)
      [(⟨0, 0, 0⟩ : Color), ⟨0, 0, 0⟩]) add_neutral_colors)
      (calculate_shades_and_tints base))
  have hlen3 : add_neutral_colors.length = 3 := rfl
  have hlen4 : (calculate_shades_and_tints base).length = 4 := rfl
  have hlen6 : (more_variations base).length = 6 := rfl
  unfold seedSet
  rw [calculate_analogous_eq_zero base hb]
  omega

theorem seventeen_le_insertJit (base : Color) (hb : base.valid) (s : List Color)
    (hbase : base ∈ s) : 17 ≤ (insertJit base s js16).length := by
  have hsub : (base :: js16.map (jitterColor base)) ⊆ insertJit base s js16 := by
    intro x hx
    rcases List.mem_cons.mp hx with hxb | hx2
    · rw [hxb]
      exact mem_insertJit_of_mem base js16 s hbase
    · rw [List.mem_map] at hx2
      obtain ⟨j, hj, rfl⟩ := hx2
      exact jitterColor_mem_insertJit base js16 s hj
  have hnd := nodup_seventeen base hb
  have hle := (List.Nodup.subperm hnd hsub).length_le
  have hl : (base :: js16.map (jitterColor base)).length = 17 := by
    simp [js16]
  omega

theorem exists_terminating (base : Color) (hb : base.valid) (ps : Nat) (hps : ps ≤ 17) :
    ∃ t, jitterLoop base ps js16 (seedSet base) = some t := by
  cases ho : jitterLoop base ps js16 (seedSet base) with
  | none =>
    exfalso
    have hlt := jitterLoop_none base ps js16 (seedSet base) ho
    have h17 := seventeen_le_insertJit base hb (seedSet base) (base_mem_seedSet base)
    omega
  | some t => exact ⟨t, rfl⟩

/-- Claim C1: for every valid base, whatever the random draws and the set
enumeration order, a returning run of `generate_color_palette base 16` yields
exactly 16 pairwise-distinct colors; and runs that return do exist. -/
theorem C1_generate_sixteen_distinct (base : Color) (hb : base.valid)
    (enum : List Color → List Color) (henum : ∀ l, (enum l).Perm l) :
    (∀ (js : List Jitter) (res : List Color),
      generate_color_palette base 16 js enum = some res →
        res.length = 16 ∧ res.Nodup) ∧
    (∃ js : List Jitter, (∀ j ∈ js, j.valid) ∧
      ∃ res, generate_color_palette base 16 js enum = some res) := by
  constructor
  · intro js res h
    unfold generate_color_palette at h
    rw [Option.map_eq_some'] at h
    obtain ⟨t, ht, rfl⟩ := h
    have h16 := jitterLoop_some_length base 16 js _ _ ht
    have hnd := jitterLoop_nodup base 16 js _ _ (nodup_seedSet base) ht
    have hperm := henum t
    constructor
    · rw [List.length_take, hperm.length_eq]
      omega
    · exact (hperm.nodup_iff.mpr hnd).sublist (List.take_sublist _ _)
  · obtain ⟨t, ht⟩ := exists_terminating base hb 16 (by norm_num)
    refine ⟨js16, js16_valid, (enum t).take 16, ?_⟩
    unfold generate_color_palette
    rw [ht]
    rfl

theorem C1_generate_sixteen_distinct_witness :
    (∀ (js : List Jitter) (res : List Color),
      generate_color_palette ⟨0, 2, 2⟩ 16 js id = some res →
        res.length = 16 ∧ res.Nodup) ∧
    (∃ js : List Jitter, (∀ j ∈ js, j.valid) ∧
      ∃ res, generate_color_palette ⟨0, 2, 2⟩ 16 js id = some res) :=
  C1_generate_sixteen_distinct ⟨0, 2, 2⟩ (by decide) id (fun l => List.Perm.refl l)

/-- Claim C3 counterexample: at base `(0,0,0)` and `palette_size = 216` no run
of the jitter-fill loop with feasible random draws terminates: only the 24
colors of `reach000` are ever reachable, so the accumulated set never reaches
216 entries and the loop cannot exit — the spec's claim that up to 6³ = 216
distinct colors are jitter-reachable from any base is wrong. -/
theorem C3_counterexample :
    ¬ ∃ js : List Jitter, (∀ j ∈ js, j.valid) ∧
      generate_color_palette ⟨0, 0, 0⟩ 216 js id ≠ none := by
  rintro ⟨js, hjs, hne⟩
  cases ho : jitterLoop ⟨0, 0, 0⟩ 216 js (seedSet ⟨0, 0, 0⟩) with
  | none =>
    apply hne
    unfold generate_color_palette
    rw [ho]
    rfl
  | some t =>
    have h216 := jitterLoop_some_length _ 216 js _ _ ho
    have hstep : ∀ j ∈ js, jitterColor ⟨0, 0, 0⟩ j ∈ reach000 := by
      intro j hj
      have v := hjs j hj
      obtain ⟨s1, m1, n1, k1⟩ := j
      obtain ⟨vs, vm, vn, vk⟩ := v
      replace vs : s1 = -1 ∨ s1 = 1 := vs
      replace vm : m1 = 1 ∨ m1 = 2 := vm
      replace vn : n1 = 1 ∨ n1 = 2 := vn
      replace vk : k1 = 1 ∨ k1 = 2 := vk
      rcases vs with rfl | rfl <;> rcases vm with rfl | rfl <;>
        rcases vn with rfl | rfl <;> rcases vk with rfl | rfl <;> decide
    have hseed : ∀ x ∈ seedSet ⟨0, 0, 0⟩, x ∈ reach000 := by
      rw [seedSet_eq_det ⟨0, 0, 0⟩ (by decide)]
      decide
    have hsub := jitterLoop_subset _ 216 reach000 js hstep _ _ hseed ho
    have hnd := jitterLoop_nodup _ 216 js _ _ (nodup_seedSet _) ho
    have hlen := (List.Nodup.subperm hnd (fun x hx => hsub x hx)).length_le
    have hr : reach000.length = 24 := rfl
    omega

/-- Claim C3 (amended): termination of the jitter-fill loop is achievable for
every `palette_size` up to the size of the genuinely reachable set — at least
17 colors (the base plus its 16 jitter variants) for every valid base — but
not for every `palette_size` up to 216 as the spec states. -/
theorem C3_amended_reachable_up_to_17 (base : Color) (hb : base.valid)
    (ps : Nat) (hps : ps ≤ 17) :
    ∃ js : List Jitter, (∀ j ∈ js, j.valid) ∧
      ∃ res, generate_color_palette base ps js id = some res := by
  obtain ⟨t, ht⟩ := exists_terminating base hb ps hps
  refine ⟨js16, js16_valid, (id t).take ps, ?_⟩
  unfold generate_color_palette
  rw [ht]
  rfl

theorem C3_amended_reachable_up_to_17_witness :
    ∃ js : List Jitter, (∀ j ∈ js, j.valid) ∧
      ∃ res, generate_color_palette ⟨0, 0, 0⟩ 17 js id = some res :=
  C3_amended_reachable_up_to_17 ⟨0, 0, 0⟩ (by decide) 17 (by norm_num)

/-- Claim C4 counterexample: with `palette_size = 2` the trailing `[:2]`
truncation keeps whichever two entries the set enumeration yields first; for
base `(0,2,2)`, no jitter draws, and the reversed enumeration order, the
returned pair contains neither the base nor its complement. -/
theorem C4_counterexample :
    ∃ res, generate_color_palette ⟨0, 2, 2⟩ 2 [] List.reverse = some res ∧
      (⟨0, 2, 2⟩ : Color) ∉ res ∧
      (⟨0, 2, 2⟩ : Color).get_complementary_color ∉ res := by
  refine ⟨[⟨0, 2, 1⟩, ⟨0, 1, 2⟩], ?_, by decide, by decide⟩
  unfold generate_color_palette
  rw [seedSet_eq_det ⟨0, 2, 2⟩ (by decide)]
  decide

/-- Claim C4 (amended): for every `palette_size ≥ 16` — in particular the
default 16, where the trailing truncation is provably a no-op — every
returning run of `generate_color_palette` yields a collection containing both
the base color and its complementary color. -/
theorem C4_amended_contains_base_and_complement (base : Color) (hb : base.valid)
    (ps : Nat) (hps : 16 ≤ ps) (js : List Jitter)
    (enum : List Color → List Color) (henum : ∀ l, (enum l).Perm l)
    (res : List Color) (h : generate_color_palette base ps js enum = some res) :
    base ∈ res ∧ base.get_complementary_color ∈ res := by
  unfold generate_color_palette at h
  rw [Option.map_eq_some'] at h
  obtain ⟨t, ht, rfl⟩ := h
  have hlen2 := jitterLoop_length_le base ps js _ _
    (le_trans (seedSet_length_le base hb) hps) ht
  have hperm := henum t
  have htake : (enum t).take ps = enum t :=
    List.take_of_length_le (by rw [hperm.length_eq]; omega)
  rw [htake]
  exact ⟨hperm.mem_iff.mpr (jitterLoop_mem base ps js _ _ base (base_mem_seedSet base) ht),
    hperm.mem_iff.mpr (jitterLoop_mem base ps js _ _ _ (compl_mem_seedSet base) ht)⟩

theorem C4_amended_contains_base_and_complement_witness :
    ∃ res, generate_color_palette ⟨0, 2, 2⟩ 16 js16 id = some res ∧
      (⟨0, 2, 2⟩ : Color) ∈ res ∧
      (⟨0, 2, 2⟩ : Color).get_complementary_color ∈ res := by
  obtain ⟨t, ht⟩ := exists_terminating ⟨0, 2, 2⟩ (by decide) 16 (by norm_num)
  have hgen : generate_color_palette ⟨0, 2, 2⟩ 16 js16 id = some ((id t).take 16) := by
    unfold generate_color_palette
    rw [ht]
    rfl
  exact ⟨(id t).take 16, hgen,
    C4_amended_contains_base_and_complement ⟨0, 2, 2⟩ (by decide) 16 (by norm_num) js16 id
      (fun l => List.Perm.refl l) _ hgen⟩

theorem pyInt_zero_lit : pyInt 0 = 0 := by
  rw [show (0 : ℚ) = ((0 : Int) : ℚ) by norm_num, pyInt_intCast]

theorem pyInt_one_lit : pyInt 1 = 1 := by
  rw [show (1 : ℚ) = ((1 : Int) : ℚ) by norm_num, pyInt_intCast]

theorem pyInt_two_lit : pyInt 2 = 2 := by
  rw [show (2 : ℚ) = ((2 : Int) : ℚ) by norm_num, pyInt_intCast]

theorem rgb_to_hls_teal : rgb_to_hls 0 (2/5) (2/5) = (1/2, 1/5, 1) := by
  have hf : ⌊(1/2 : ℚ)⌋ = 0 := by
    rw [Int.floor_eq_zero_iff]
    norm_num [Set.mem_Ico]
  norm_num [rgb_to_hls, max_def, min_def, pymod1, hf]

theorem hls_to_rgb_teal_plus : hls_to_rgb (7/12) (1/5) 1 = (0, 1/5, 2/5) := by
  have f1 : pymod1 ((7 : ℚ)/12 + 1/3) = 11/12 :=
    pymod1_eq_of _ _ (by norm_num) (by norm_num) (by norm_num)
  have f1b : pymod1 ((11 : ℚ)/12) = 11/12 :=
    pymod1_eq_of _ _ rfl (by norm_num) (by norm_num)
  have f2 : pymod1 ((7 : ℚ)/12) = 7/12 :=
    pymod1_eq_of _ _ rfl (by norm_num) (by norm_num)
  have f3 : pymod1 ((7 : ℚ)/12 - 1/3) = 1/4 :=
    pymod1_eq_of _ _ (by norm_num) (by norm_num) (by norm_num)
  have f3b : pymod1 ((1 : ℚ)/4) = 1/4 :=
    pymod1_eq_of _ _ rfl (by norm_num) (by norm_num)
  norm_num [hls_to_rgb, v_hls, f1, f1b, f2, f3, f3b]

theorem hls_to_rgb_teal_minus : hls_to_rgb (5/12) (1/5) 1 = (0, 2/5, 1/5) := by
  have f1 : pymod1 ((5 : ℚ)/12 + 1/3) = 3/4 :=
    pymod1_eq_of _ _ (by norm_num) (by norm_num) (by norm_num)
  have f1b : pymod1 ((3 : ℚ)/4) = 3/4 :=
    pymod1_eq_of _ _ rfl (by norm_num) (by norm_num)
  have f2 : pymod1 ((5 : ℚ)/12) = 5/12 :=
    pymod1_eq_of _ _ rfl (by norm_num) (by norm_num)
  have f3 : pymod1 ((5 : ℚ)/12 - 1/3) = 1/12 :=
    pymod1_eq_of _ _ (by norm_num) (by norm_num) (by norm_num)
  have f3b : pymod1 ((1 : ℚ)/12) = 1/12 :=
    pymod1_eq_of _ _ rfl (by norm_num) (by norm_num)
  norm_num [hls_to_rgb, v_hls, f1, f1b, f2, f3, f3b]

/-- Claim C2: at the valid base `(0,2,2)` the code's analogous colors are both
`(0,0,0)` — `int(a * 5 / 51)` truncates the `[0,1]`-ranged `hls_to_rgb`
components to 0 — whereas the spec's reference computation (convert back into
the 0–5 channel range via truncation) yields the hue-shifted colors `(0,1,2)`
and `(0,2,1)`: the code does not implement the specified conversion. -/
theorem C2_analogous_eval :
    calculate_analogous ⟨0, 2, 2⟩ = [⟨0, 0, 0⟩, ⟨0, 0, 0⟩] ∧
    calculate_analogous_spec ⟨0, 2, 2⟩ = [⟨0, 1, 2⟩, ⟨0, 2, 1⟩] := by
  refine ⟨calculate_analogous_eq_zero ⟨0, 2, 2⟩ (by decide), ?_⟩
  simp only [calculate_analogous_spec]
  norm_num
  rw [rgb_to_hls_teal]
  norm_num
  rw [pymod1_eq_of ((7 : ℚ)/12) (7/12) rfl (by norm_num) (by norm_num),
    pymod1_eq_of ((5 : ℚ)/12) (5/12) rfl (by norm_num) (by norm_num),
    hls_to_rgb_teal_plus, hls_to_rgb_teal_minus]
  norm_num [pyInt_zero_lit, pyInt_one_lit, pyInt_two_lit]

end AnsiColorManager
